import Mathlib

/-
Shallow embedding of the `nurse` diagnostic-reporting crate.

Source text is modelled as a `List Char`; the offsets stored in a
`Lookup` are character indices (the crate computes byte offsets via
`char_indices`, which coincide with character indices on the ASCII
sources exercised here, and slices its `String`s with them).

Fallible operations (Rust panics, `expect`, slice indexing that can
go out of bounds) are modelled with `Option`: `none` marks the panic.
-/

/-- Tab normalization performed by `Lookup::new` (src/lookup.rs:16):
every horizontal tab in the source is replaced by a single space. -/
def normalizeTabs (s : List Char) : List Char :=
  s.map (fun c => if c = '\t' then ' ' else c)

/-- The line-head table built by `Lookup::new` (src/lookup.rs:18-24):
offset 0 followed by `i + 1` for every index `i` holding a newline. -/
def lineHeads (s : List Char) : List Nat :=
  0 :: (List.range s.length).filterMap
    (fun i => if s.get? i = some '\n' then some (i + 1) else none)

/-- `Lookup` (src/lookup.rs:8-11): the normalized source text together
with the offsets at which each line begins. -/
structure Lookup where
  source : List Char
  heads : List Nat
deriving DecidableEq

/-- `Lookup::new` (src/lookup.rs:14-27). -/
def Lookup.new (source : List Char) : Lookup :=
  { source := normalizeTabs source, heads := lineHeads (normalizeTabs source) }

/-- `Lookup::file_len` (src/lookup.rs:77-79). -/
def Lookup.file_len (l : Lookup) : Nat :=
  l.source.length

/-- Observable behavior of Rust `slice::binary_search` on the strictly
sorted slices it is applied to in src/lookup.rs: `Ok` with the (unique)
index of a match, otherwise `Err` with the insertion point, i.e. the
number of elements below the probe. -/
def binarySearch (xs : List Nat) (k : Nat) : Except Nat Nat :=
  if xs.contains k then Except.ok (xs.indexOf k)
  else Except.error (xs.countP (fun x => decide (x < k)))

/-- `Lookup::line_n` (src/lookup.rs:29-34). The `Err(insert)` arm
computes `insert - 1` on a `usize`; `none` models the underflow panic
that would occur were `insert` zero. -/
def Lookup.line_n (l : Lookup) (index : Nat) : Option Nat :=
  match binarySearch l.heads index with
  | Except.ok line => some line
  | Except.error 0 => none
  | Except.error (insert + 1) => some insert

/-- `Lookup::col_from_line` (src/lookup.rs:45-47): `index - heads[line]`.
Every line number this is applied to in the renderer comes from
`line_n` and is in bounds, so the `getD` default is never reached. -/
def Lookup.col_from_line (l : Lookup) (line index : Nat) : Nat :=
  index - l.heads.getD line 0

/-- `Lookup::lines` (src/lookup.rs:61-75), including its use of
`self.heads[start_line..]` for the second binary search: the search
result is an index into that subslice. -/
def Lookup.lines (l : Lookup) (s e : Nat) : Option (Nat × Nat) :=
  match l.line_n s with
  | none => none
  | some start_line =>
      let next_start := l.heads.getD (start_line + 1) l.source.length
      if e ≤ next_start then
        some (start_line, start_line + 1)
      else
        match binarySearch (l.heads.drop start_line) (e - 1) with
        | Except.ok end_line => some (start_line, end_line + 1)
        | Except.error insert => some (start_line, insert)

/-- The underline row of `TerminalReporter::pointer`
(src/reporter/terminal.rs:218-247), produced when the span's line
range has at most one line (`lines.len() > 1` fails): `col_n - 1`
spaces followed by `end - start` underline characters, where
`col_n = col_from_line(lines.start, span.start) + 1`. Color escape
wrapping is omitted; `none` models the multi-line branch (different
row structure) and the panics propagated from `lines`. -/
def pointerUnderlineRow (l : Lookup) (s e : Nat) : Option (List Char) :=
  match l.lines s e with
  | none => none
  | some (ls, le) =>
      if le - ls > 1 then
        none
      else
        some (List.replicate (l.col_from_line ls s + 1 - 1) ' ' ++
              List.replicate (e - s) '‾')

/-- `Level` (src/diagnostic.rs:247-265). -/
inductive Level where
  | Error
  | Warn
  | Info
  | Debug
deriving DecidableEq

/-- `LevelFilter` (src/diagnostic.rs:289-300). -/
inductive LevelFilter where
  | Off
  | Error
  | Warn
  | Info
  | Debug
deriving DecidableEq

/-- `LevelFilter::passes` (src/diagnostic.rs:303-311). -/
def LevelFilter.passes (f : LevelFilter) (level : Level) : Bool :=
  match f, level with
  | LevelFilter.Error, Level.Error => true
  | LevelFilter.Warn, Level.Error => true
  | LevelFilter.Warn, Level.Warn => true
  | LevelFilter.Info, Level.Error => true
  | LevelFilter.Info, Level.Warn => true
  | LevelFilter.Info, Level.Info => true
  | LevelFilter.Debug, _ => true
  | _, _ => false

/-- `Span` (src/span.rs:110-118). `LookupKey` (a slotmap key) is
modelled as an index into the reporter's registration list; the Rust
field `end` is a Lean keyword and is called `stop` here. -/
structure Span where
  lookup : Nat
  start : Nat
  stop : Nat
deriving DecidableEq

/-- `Span::to` (src/span.rs:175-183). The `assert_eq!` on the lookup
keys panics when they differ; `none` models that panic. -/
def Span.to (s : Span) (other : Span) : Option Span :=
  if s.lookup = other.lookup then
    some { lookup := other.lookup,
           start := min s.start other.start,
           stop := max s.stop other.stop }
  else
    none

/-- `Note` (src/diagnostic.rs:213-216). -/
structure Note where
  value : String
  span : Option Span
deriving DecidableEq

/-- `Diagnostic` (src/diagnostic.rs:11-16). -/
structure Diagnostic where
  level : Level
  message : String
  note : Option Note
  span : Option Span
deriving DecidableEq

/-- `impl PartialEq for Diagnostic` (src/diagnostic.rs:205-209):
`self.message == other.message && self.level == other.level`, where the
Rust `==` on `String` and on the derived-`PartialEq` `Level` is
structural equality. -/
def Diagnostic.beq (a b : Diagnostic) : Bool :=
  decide (a.message = b.message) && decide (a.level = b.level)

/-- `TerminalReporter` (src/reporter/terminal.rs:39-44): the pending
diagnostics, the slotmap of registered files (modelled as an
append-only list indexed by registration order), and the level filter.
The output stream is abstracted away; emission takes the per-diagnostic
write outcome as a function argument. -/
structure TerminalReporter where
  diagnostics : List Diagnostic
  lookups : List (String × Lookup)
  filter : LevelFilter
deriving DecidableEq

/-- `TerminalReporter::register_file` (src/reporter/terminal.rs:87-90):
inserts `(name, Lookup::new(contents))` and returns the fresh key. -/
def TerminalReporter.register_file (r : TerminalReporter) (name : String)
    (contents : List Char) : TerminalReporter × Nat :=
  ({ r with lookups := r.lookups ++ [(name, Lookup.new contents)] },
   r.lookups.length)

/-- `TerminalReporter::eof_span` (src/reporter/terminal.rs:334-347):
looks the key up (`none` models the `expect` panic on an unregistered
key) and returns the span `[file_len, file_len + 1)`. -/
def TerminalReporter.eof_span (r : TerminalReporter) (key : Nat) : Option Span :=
  match r.lookups.get? key with
  | none => none
  | some (_, lookup) =>
      some { lookup := key, start := lookup.file_len, stop := lookup.file_len + 1 }

/-- The loop of `TerminalReporter::emit_all`
(src/reporter/terminal.rs:113-121): each queued diagnostic failing the
filter is skipped; for each one passing, `emit_fancy` is attempted and
a failure overwrites `result` without stopping the loop. Returns the
diagnostics attempted, in order, together with the final `result`. -/
def emitLoop {ε : Type} (emitFancy : Diagnostic → Except ε Unit)
    (filter : LevelFilter) :
    List Diagnostic → List Diagnostic → Except ε Unit →
      List Diagnostic × Except ε Unit
  | [], attempted, result => (attempted, result)
  | d :: rest, attempted, result =>
      if filter.passes d.level then
        match emitFancy d with
        | Except.ok _ => emitLoop emitFancy filter rest (attempted ++ [d]) result
        | Except.error e =>
            emitLoop emitFancy filter rest (attempted ++ [d]) (Except.error e)
      else
        emitLoop emitFancy filter rest attempted result

/-- `TerminalReporter::emit_all` (src/reporter/terminal.rs:107-124):
swaps the queue with an empty one, then runs the emission loop over the
taken queue starting from `Ok(())`. -/
def TerminalReporter.emit_all {ε : Type}
    (emitFancy : Diagnostic → Except ε Unit) (r : TerminalReporter) :
    TerminalReporter × List Diagnostic × Except ε Unit :=
  ({ r with diagnostics := [] },
   emitLoop emitFancy r.filter r.diagnostics [] (Except.ok ()))

/-- The write failures produced by `emitFancy` over a list of
diagnostics, in order. -/
def writeFailures {ε : Type} (emitFancy : Diagnostic → Except ε Unit)
    (ds : List Diagnostic) : List ε :=
  ds.filterMap (fun d =>
    match emitFancy d with
    | Except.ok _ => none
    | Except.error e => some e)

/-- Folding `result = Err(err)` over a list of failures: the last
failure wins, and an empty failure list keeps the starting result. -/
def lastFailure {ε : Type} (start : Except ε Unit) : List ε → Except ε Unit
  | [] => start
  | e :: es => lastFailure (Except.error e) es

/-- Sample source of spec scenarios B and C. -/
def srcC : List Char := ['a', '\n', 'b', 'b', '\n', 'c', 'c', 'c']

/-- Helper: closed form of the `emit_all` loop: it attempts exactly
the filter-passing diagnostics in order, and the final result is the
last write failure among them (the starting result if none fail). -/
theorem emitLoop_spec {ε : Type} (ef : Diagnostic → Except ε Unit) (f : LevelFilter)
    (ds att : List Diagnostic) (res : Except ε Unit) :
    emitLoop ef f ds att res =
      (att ++ ds.filter (fun d => f.passes d.level),
       lastFailure res (writeFailures ef (ds.filter (fun d => f.passes d.level)))) := by
  induction ds generalizing att res with
  | nil => simp [emitLoop, writeFailures, lastFailure]
  | cons d rest ih =>
    by_cases hp : f.passes d.level
    · cases hef : ef d with
      | ok u =>
        simp [emitLoop, hp, hef, ih, writeFailures, List.filter_cons, List.filterMap_cons]
      | error e =>
        simp [emitLoop, hp, hef, ih, writeFailures, List.filter_cons, List.filterMap_cons,
          lastFailure]
    · simp [emitLoop, hp, ih, List.filter_cons]

/-- C1 (code_bug evidence): for source `"a\nbb\nccc"` (heads 0, 2, 5)
the span `[2, 8)` reaches offset 7, which lies on line 2, yet
`Lookup::lines` returns the line range `1..2` — line 2 is dropped
because the second binary search's subslice-relative index is used as
an absolute line number — and the renderer therefore takes its
single-line branch (`lines.len() > 1` fails, the underline row is
built). -/
theorem lines_drops_end_line :
    (Lookup.new srcC).lines 2 8 = some (1, 2) ∧
    (Lookup.new srcC).line_n 7 = some 2 ∧
    (pointerUnderlineRow (Lookup.new srcC) 2 8).isSome = true := by
  decide

/-- C2 (counterexample): for source `"abc"` the zero-width span
`[1, 1)` renders an underline row of one space and zero underline
characters, not the one-character-wide pointer the claim requires. -/
theorem pointer_zero_width_no_minimum :
    pointerUnderlineRow (Lookup.new ['a', 'b', 'c']) 1 1 =
      some (List.replicate 1 ' ' ++ List.replicate 0 '‾') ∧
    pointerUnderlineRow (Lookup.new ['a', 'b', 'c']) 1 1 ≠
      some (List.replicate 1 ' ' ++ List.replicate 1 '‾') := by
  decide

/-- C2 (amended): whenever the single-line underline row is produced,
it is exactly `column` spaces (the span start's column on its starting
line) followed by exactly `end − start` underline characters — with no
minimum, so a zero-width span renders an empty underline. -/
theorem pointer_underline_row_shape (l : Lookup) (s e : Nat) (row : List Char)
    (h : pointerUnderlineRow l s e = some row) :
    ∃ ls le, l.lines s e = some (ls, le) ∧
      row = List.replicate (l.col_from_line ls s) ' ' ++
        List.replicate (e - s) '‾' := by
  unfold pointerUnderlineRow at h
  cases hl : l.lines s e with
  | none => rw [hl] at h; cases h
  | some p =>
    obtain ⟨ls, le⟩ := p
    rw [hl] at h
    by_cases hml : le - ls > 1
    · simp [hml] at h
    · simp [hml, Nat.add_sub_cancel] at h
      exact ⟨ls, le, rfl, h.symm⟩

/-- C2 witness: the row for span `[0, 2)` over `"abc"`. -/
theorem pointer_underline_row_shape_witness :
    ∃ ls le, (Lookup.new ['a', 'b', 'c']).lines 0 2 = some (ls, le) ∧
      (List.replicate 0 ' ' ++ List.replicate 2 '‾' : List Char) =
        List.replicate ((Lookup.new ['a', 'b', 'c']).col_from_line ls 0) ' ' ++
          List.replicate (2 - 0) '‾' :=
  pointer_underline_row_shape (Lookup.new ['a', 'b', 'c']) 0 2
    (List.replicate 0 ' ' ++ List.replicate 2 '‾') (by decide)

/-- C3 (counterexample): two queued diagnostics whose writes both fail
(with errors named "first" and "second"): `emit_all` returns the
second failure, not the first one. -/
theorem emit_all_returns_second_failure :
    (TerminalReporter.emit_all (fun d => (Except.error d.message : Except String Unit))
        (TerminalReporter.mk
          [Diagnostic.mk Level.Error "first" none none,
           Diagnostic.mk Level.Error "second" none none]
          [] LevelFilter.Debug)).2.2 = Except.error "second" ∧
    (Except.error "second" : Except String Unit) ≠ Except.error "first" := by
  refine ⟨rfl, fun hh => ?_⟩
  injection hh with hh
  exact absurd hh (by decide)

/-- C3 (amended): `emit_all` attempts every filter-passing queued
diagnostic in order even after a write fails (no early return), and
the result surfaced to the caller is the LAST failure encountered
(`Ok` if every attempted write succeeded). -/
theorem emit_all_failure_policy {ε : Type} (ef : Diagnostic → Except ε Unit)
    (r : TerminalReporter) :
    (r.emit_all ef).2.1 = r.diagnostics.filter (fun d => r.filter.passes d.level) ∧
    (r.emit_all ef).2.2 =
      lastFailure (Except.ok ())
        (writeFailures ef (r.diagnostics.filter (fun d => r.filter.passes d.level))) := by
  unfold TerminalReporter.emit_all
  rw [emitLoop_spec]
  exact ⟨by simp, by simp⟩

/-- C4: with no write failures, `emit_all` empties the queue, attempts
exactly the queued diagnostics passing the filter in their insertion
order, and returns `Ok`. -/
theorem emit_all_drains {ε : Type} (ef : Diagnostic → Except ε Unit)
    (r : TerminalReporter) (hw : ∀ d, ef d = Except.ok ()) :
    (r.emit_all ef).1.diagnostics = [] ∧
    (r.emit_all ef).2.1 = r.diagnostics.filter (fun d => r.filter.passes d.level) ∧
    (r.emit_all ef).2.2 = Except.ok () := by
  unfold TerminalReporter.emit_all
  rw [emitLoop_spec]
  refine ⟨rfl, by simp, ?_⟩
  have hnf : writeFailures ef (r.diagnostics.filter (fun d => r.filter.passes d.level)) = [] := by
    simp [writeFailures, hw]
  rw [hnf]
  rfl

/-- C4 witness (spec scenario E): queue `[Error "e", Debug "d",
Warn "w"]` with filter `Warn` emits exactly `"e"` then `"w"`. -/
theorem emit_all_drains_witness :
    (TerminalReporter.emit_all (fun _ => (Except.ok () : Except Unit Unit))
        (TerminalReporter.mk
          [Diagnostic.mk Level.Error "e" none none,
           Diagnostic.mk Level.Debug "d" none none,
           Diagnostic.mk Level.Warn "w" none none]
          [] LevelFilter.Warn)).1.diagnostics = [] ∧
    (TerminalReporter.emit_all (fun _ => (Except.ok () : Except Unit Unit))
        (TerminalReporter.mk
          [Diagnostic.mk Level.Error "e" none none,
           Diagnostic.mk Level.Debug "d" none none,
           Diagnostic.mk Level.Warn "w" none none]
          [] LevelFilter.Warn)).2.1 =
      [Diagnostic.mk Level.Error "e" none none,
       Diagnostic.mk Level.Warn "w" none none] ∧
    (TerminalReporter.emit_all (fun _ => (Except.ok () : Except Unit Unit))
        (TerminalReporter.mk
          [Diagnostic.mk Level.Error "e" none none,
           Diagnostic.mk Level.Debug "d" none none,
           Diagnostic.mk Level.Warn "w" none none]
          [] LevelFilter.Warn)).2.2 = Except.ok () := by
  have h := emit_all_drains (fun _ => (Except.ok () : Except Unit Unit))
    (TerminalReporter.mk
      [Diagnostic.mk Level.Error "e" none none,
       Diagnostic.mk Level.Debug "d" none none,
       Diagnostic.mk Level.Warn "w" none none]
      [] LevelFilter.Warn) (fun _ => rfl)
  exact ⟨h.1, h.2.1.trans (by decide), h.2.2⟩

/-- C5: the full filter/level truth table of `LevelFilter::passes`:
`Off` passes nothing, `Error` passes only `Error`, `Warn` passes
`Error` and `Warn`, `Info` passes `Error`, `Warn` and `Info`, and
`Debug` passes everything. -/
theorem levelFilter_passes_table :
    LevelFilter.Off.passes Level.Error = false ∧
    LevelFilter.Off.passes Level.Warn = false ∧
    LevelFilter.Off.passes Level.Info = false ∧
    LevelFilter.Off.passes Level.Debug = false ∧
    LevelFilter.Error.passes Level.Error = true ∧
    LevelFilter.Error.passes Level.Warn = false ∧
    LevelFilter.Error.passes Level.Info = false ∧
    LevelFilter.Error.passes Level.Debug = false ∧
    LevelFilter.Warn.passes Level.Error = true ∧
    LevelFilter.Warn.passes Level.Warn = true ∧
    LevelFilter.Warn.passes Level.Info = false ∧
    LevelFilter.Warn.passes Level.Debug = false ∧
    LevelFilter.Info.passes Level.Error = true ∧
    LevelFilter.Info.passes Level.Warn = true ∧
    LevelFilter.Info.passes Level.Info = true ∧
    LevelFilter.Info.passes Level.Debug = false ∧
    LevelFilter.Debug.passes Level.Error = true ∧
    LevelFilter.Debug.passes Level.Warn = true ∧
    LevelFilter.Debug.passes Level.Info = true ∧
    LevelFilter.Debug.passes Level.Debug = true := by
  decide

/-- C6: a file registered on a reporter gets an `eof_span` of exactly
`[file_len, file_len + 1)` over its (tab-normalized) contents — a
width-1 span whose start and end differ, never a zero-width one. -/
theorem eof_span_after_register (r r' : TerminalReporter) (name : String)
    (contents : List Char) (key : Nat)
    (h : r.register_file name contents = (r', key)) :
    r'.eof_span key =
      some (Span.mk key (Lookup.new contents).file_len
        ((Lookup.new contents).file_len + 1)) ∧
    ((Lookup.new contents).file_len + 1) - (Lookup.new contents).file_len = 1 ∧
    (Lookup.new contents).file_len ≠ (Lookup.new contents).file_len + 1 := by
  have h1 : ({ r with lookups := r.lookups ++ [(name, Lookup.new contents)] } :
      TerminalReporter) = r' := congrArg Prod.fst h
  have h2 : r.lookups.length = key := congrArg Prod.snd h
  subst h1
  subst h2
  refine ⟨?_, by omega, by omega⟩
  unfold TerminalReporter.eof_span
  have hget : (r.lookups ++ [(name, Lookup.new contents)]).get? r.lookups.length =
      some (name, Lookup.new contents) := by
    rw [List.get?_eq_getElem?]
    exact List.getElem?_concat_length _ _
  rw [hget]

/-- C6 witness: registering `"3 + "` on an empty reporter. -/
theorem eof_span_after_register_witness :
    (TerminalReporter.mk [] [("example.txt", Lookup.new ['3', ' ', '+', ' '])]
        LevelFilter.Debug).eof_span 0 =
      some (Span.mk 0 (Lookup.new ['3', ' ', '+', ' ']).file_len
        ((Lookup.new ['3', ' ', '+', ' ']).file_len + 1)) ∧
    ((Lookup.new ['3', ' ', '+', ' ']).file_len + 1) -
      (Lookup.new ['3', ' ', '+', ' ']).file_len = 1 ∧
    (Lookup.new ['3', ' ', '+', ' ']).file_len ≠
      (Lookup.new ['3', ' ', '+', ' ']).file_len + 1 :=
  eof_span_after_register (TerminalReporter.mk [] [] LevelFilter.Debug)
    (TerminalReporter.mk [] [("example.txt", Lookup.new ['3', ' ', '+', ' '])]
      LevelFilter.Debug) "example.txt" ['3', ' ', '+', ' '] 0 rfl

/-- C7: merging two spans over the same file succeeds and yields the
convex hull `[min(start1, start2), max(end1, end2))` on that file. -/
theorem span_to_same_file (s1 s2 : Span) (h : s1.lookup = s2.lookup) :
    s1.to s2 = some (Span.mk s1.lookup (min s1.start s2.start)
      (max s1.stop s2.stop)) := by
  unfold Span.to
  rw [if_pos h, h]

/-- C7 witness: merging `[0, 3)` and `[4, 7)` over file 0. -/
theorem span_to_same_file_witness :
    Span.to (Span.mk 0 0 3) (Span.mk 0 4 7) =
      some (Span.mk 0 (min 0 4) (max 3 7)) :=
  span_to_same_file (Span.mk 0 0 3) (Span.mk 0 4 7) rfl

/-- C8: merging two spans over different files panics (the
`assert_eq!` fails) and never produces a merged span. -/
theorem span_to_cross_file (s1 s2 : Span) (h : s1.lookup ≠ s2.lookup) :
    s1.to s2 = none ∧ ∀ sp : Span, s1.to s2 ≠ some sp := by
  have h0 : s1.to s2 = none := by
    unfold Span.to
    rw [if_neg h]
  exact ⟨h0, fun sp hsp => by rw [h0] at hsp; cases hsp⟩

/-- C8 witness: a span in file 0 merged with a span in file 1. -/
theorem span_to_cross_file_witness :
    Span.to (Span.mk 0 0 3) (Span.mk 1 4 7) = none :=
  (span_to_cross_file (Span.mk 0 0 3) (Span.mk 1 4 7) (by decide)).1

/-- C10: `Diagnostic` equality compares exactly the message and the
level; the span and note fields play no part. -/
theorem diagnostic_beq_iff (a b : Diagnostic) :
    Diagnostic.beq a b = true ↔ (a.message = b.message ∧ a.level = b.level) := by
  simp [Diagnostic.beq]

/-- Helper: an element produced by the newline scan in `lineHeads` is
positive and at most the source length. -/
theorem lineHeads_tail_mem {s : List Char} {x : Nat}
    (hx : x ∈ (List.range s.length).filterMap
      (fun i => if s.get? i = some '\n' then some (i + 1) else none)) :
    0 < x ∧ x ≤ s.length := by
  obtain ⟨i, hi, hfi⟩ := List.mem_filterMap.mp hx
  have hilt : i < s.length := List.mem_range.mp hi
  by_cases hc : s.get? i = some '\n'
  · rw [if_pos hc] at hfi
    injection hfi with hfi
    omega
  · rw [if_neg hc] at hfi
    cases hfi

/-- Helper: the line-head table built by `Lookup::new` is strictly
increasing. -/
theorem lineHeads_sorted (s : List Char) :
    List.Pairwise (· < ·) (lineHeads s) := by
  unfold lineHeads
  refine List.Pairwise.cons ?_ ?_
  · intro x hx
    exact (lineHeads_tail_mem hx).1
  · refine List.pairwise_filterMap.mpr ?_
    refine (List.pairwise_lt_range s.length).imp ?_
    intro a b hab c hc c' hc'
    rw [Option.mem_def] at hc hc'
    by_cases ha : s.get? a = some '\n'
    · by_cases hb : s.get? b = some '\n'
      · rw [if_pos ha] at hc
        rw [if_pos hb] at hc'
        injection hc with hc
        injection hc' with hc'
        omega
      · rw [if_neg hb] at hc'
        cases hc'
    · rw [if_neg ha] at hc
      cases hc

/-- Helper: the line-head table starts with offset 0. -/
theorem lineHeads_zero_mem (s : List Char) : 0 ∈ lineHeads s := by
  unfold lineHeads
  exact List.mem_cons_self _ _

/-- Helper: every entry of the line-head table is at most the source
length. -/
theorem lineHeads_le (s : List Char) :
    ∀ x ∈ lineHeads s, x ≤ s.length := by
  intro x hx
  unfold lineHeads at hx
  rcases List.mem_cons.mp hx with h0 | h1
  · omega
  · exact (lineHeads_tail_mem h1).2

/-- Helper: `line_n` on any lookup whose head table is strictly sorted,
contains offset 0 and stays within the file length (all invariants
established by `Lookup::new`): a line-start offset resolves to exactly
its own line, an offset at or past the end of file resolves to the
last line, and the `insert - 1` subtraction never underflows. -/
theorem line_n_aux (l : Lookup)
    (hsorted : List.Pairwise (· < ·) l.heads)
    (h0 : 0 ∈ l.heads)
    (hle : ∀ x ∈ l.heads, x ≤ l.file_len) (off : Nat) :
    (∀ i : Nat, l.heads.get? i = some off → l.line_n off = some i) ∧
    (l.file_len ≤ off → l.line_n off = some (l.heads.length - 1)) ∧
    ((l.line_n off).isSome = true) := by
  have hnd : l.heads.Nodup :=
    List.Pairwise.imp (fun hab => Nat.ne_of_lt hab) hsorted
  refine ⟨?_, ?_, ?_⟩
  · intro i hi
    have hmem : off ∈ l.heads := List.get?_mem hi
    have hcontains : l.heads.contains off = true := by
      simp [List.contains, hmem]
    rw [List.get?_eq_getElem?] at hi
    obtain ⟨hlt, hval⟩ := List.getElem?_eq_some.mp hi
    have hbs : binarySearch l.heads off = Except.ok i := by
      unfold binarySearch
      rw [if_pos hcontains]
      have := List.indexOf_getElem hnd i hlt
      rw [hval] at this
      rw [this]
    unfold Lookup.line_n
    rw [hbs]
  · intro hoff
    by_cases hmem : off ∈ l.heads
    · have hcontains : l.heads.contains off = true := by
        simp [List.contains, hmem]
      have hlt : List.indexOf off l.heads < l.heads.length :=
        List.indexOf_lt_length.mpr hmem
      have hval : l.heads[List.indexOf off l.heads] = off :=
        List.getElem_indexOf hlt
      have hidx : List.indexOf off l.heads = l.heads.length - 1 := by
        by_contra hne
        have hlt2 : List.indexOf off l.heads + 1 < l.heads.length := by omega
        have hpair := List.pairwise_iff_getElem.mp hsorted
          (List.indexOf off l.heads) (List.indexOf off l.heads + 1) hlt hlt2
          (by omega)
        have hmem2 : l.heads[List.indexOf off l.heads + 1] ∈ l.heads :=
          List.getElem_mem hlt2
        have hle2 := hle _ hmem2
        omega
      have hbs : binarySearch l.heads off = Except.ok (l.heads.length - 1) := by
        unfold binarySearch
        rw [if_pos hcontains, hidx]
      unfold Lookup.line_n
      rw [hbs]
    · have hcontains : l.heads.contains off = false := by
        simp [List.contains, hmem]
      have hcount : l.heads.countP (fun x => decide (x < off)) = l.heads.length := by
        rw [List.countP_eq_length]
        intro x hx
        have hxle := hle x hx
        have hne : x ≠ off := fun he => hmem (he ▸ hx)
        simp only [decide_eq_true_eq]
        omega
      obtain ⟨m, hm⟩ : ∃ m, l.heads.length = m + 1 := by
        cases hh : l.heads with
        | nil => rw [hh] at h0; cases h0
        | cons a as => exact ⟨as.length, by simp⟩
      have hbs : binarySearch l.heads off = Except.error (m + 1) := by
        unfold binarySearch
        rw [if_neg (by simpa using hmem), hcount, hm]
      unfold Lookup.line_n
      rw [hbs, hm]
      rfl
  · by_cases hmem : off ∈ l.heads
    · have hcontains : l.heads.contains off = true := by
        simp [List.contains, hmem]
      have hbs : binarySearch l.heads off = Except.ok (List.indexOf off l.heads) := by
        unfold binarySearch
        rw [if_pos hcontains]
      unfold Lookup.line_n
      rw [hbs]
      rfl
    · have hcontains : l.heads.contains off = false := by
        simp [List.contains, hmem]
      have hne : off ≠ 0 := fun he => hmem (he ▸ h0)
      have hcpos : 0 < l.heads.countP (fun x => decide (x < off)) :=
        List.countP_pos_iff.mpr ⟨0, h0, by simpa using Nat.pos_of_ne_zero hne⟩
      obtain ⟨m, hm⟩ : ∃ m, l.heads.countP (fun x => decide (x < off)) = m + 1 :=
        ⟨l.heads.countP (fun x => decide (x < off)) - 1, by omega⟩
      have hbs : binarySearch l.heads off = Except.error (m + 1) := by
        unfold binarySearch
        rw [if_neg (by simpa using hmem), hm]
      unfold Lookup.line_n
      rw [hbs]
      rfl

/-- C9: for every source text, `line_n` on the lookup built from it
resolves an offset equal to a line's start to exactly that line,
resolves every offset at or beyond the end of the file to the last
line, and never panics for offsets up to the file length. -/
theorem line_n_resolves (source : List Char) (off : Nat) :
    (∀ i : Nat, (Lookup.new source).heads.get? i = some off →
        (Lookup.new source).line_n off = some i) ∧
    ((Lookup.new source).file_len ≤ off →
        (Lookup.new source).line_n off = some ((Lookup.new source).heads.length - 1)) ∧
    (off ≤ (Lookup.new source).file_len →
        ((Lookup.new source).line_n off).isSome = true) := by
  have h := line_n_aux (Lookup.new source)
    (lineHeads_sorted (normalizeTabs source))
    (lineHeads_zero_mem (normalizeTabs source))
    (lineHeads_le (normalizeTabs source)) off
  exact ⟨h.1, h.2.1, fun _ => h.2.2⟩

/-- C9 witness: over `"a\nbb\nccc"` (heads 0, 2, 5; length 8): offset
2 resolves to line 1, offset 9 to the last line, offset 8 safely. -/
theorem line_n_resolves_witness :
    (Lookup.new srcC).line_n 2 = some 1 ∧
    (Lookup.new srcC).line_n 9 = some ((Lookup.new srcC).heads.length - 1) ∧
    ((Lookup.new srcC).line_n 8).isSome = true :=
  ⟨(line_n_resolves srcC 2).1 1 (by decide),
   (line_n_resolves srcC 9).2.1 (by decide),
   (line_n_resolves srcC 8).2.2 (by decide)⟩
